import Mathlib

/-!
Verification of the bitcore wallet utility layer
(packages/bitcore-wallet-service style `Utils` object): message hashing and
signature verification, address fork classification and translation, and
network-name alias resolution.  Shallow embedding: each TypeScript function is
translated into a Lean definition; JavaScript exceptions become `Except`,
caught exceptions become `Option`, and the external collaborators (the SHA-256
primitive, the secp256k1 native module, the per-fork address codecs of
bitcore-lib and friends, the alias/config tables) are explicit parameters.
-/

/-- UTF-8 encoding of a single character (what `Buffer.from(text)` does
per character). -/
def utf8EncodeChar (c : Char) : List Nat :=
  let n := c.toNat
  if n < 0x80 then [n]
  else if n < 0x800 then
    [0xC0 + n / 64, 0x80 + n % 64]
  else if n < 0x10000 then
    [0xE0 + n / 4096, 0x80 + (n / 64) % 64, 0x80 + n % 64]
  else
    [0xF0 + n / 262144, 0x80 + (n / 4096) % 64, 0x80 + (n / 64) % 64, 0x80 + n % 64]

/-- The byte sequence of a string, as produced by `Buffer.from(text)`
(UTF-8 encoding of the characters, concatenated). -/
def strBytes (s : String) : List Nat :=
  s.data.foldr (fun c acc => utf8EncodeChar c ++ acc) []

/-- JavaScript `list.join('')`: concatenation of the elements with no
separator. -/
def joinAll : List String → String
  | [] => ""
  | s :: rest => s ++ joinAll rest

/-- Value of a hexadecimal digit character, `none` for a non-hex character. -/
def hexDigitVal (c : Char) : Option Nat :=
  if '0' ≤ c ∧ c ≤ '9' then some (c.toNat - '0'.toNat)
  else if 'a' ≤ c ∧ c ≤ 'f' then some (c.toNat - 'a'.toNat + 10)
  else if 'A' ≤ c ∧ c ≤ 'F' then some (c.toNat - 'A'.toNat + 10)
  else none

/-- Greedy hex decoding of a character list, two digits per byte, stopping
(without error) at the first invalid pair or dangling digit.  This is the
semantics of Node's `Buffer.from(string, 'hex')`, which never throws on a
string: it decodes the valid prefix and drops the rest. -/
def hexPairs : List Char → List Nat
  | c1 :: c2 :: rest =>
    match hexDigitVal c1, hexDigitVal c2 with
    | some h, some l => (16 * h + l) :: hexPairs rest
    | _, _ => []
  | _ => []

/-- `Buffer.from(s, 'hex')` on a string input. -/
def hexDecode (s : String) : List Nat := hexPairs s.data

/-- A `message` argument of `verifyMessage`: either a single string or an
array of strings (`Array.isArray(message)` distinguishes the two). -/
inductive Msg
  | one : String → Msg
  | many : List String → Msg

/-- JavaScript truthiness of a message value as tested by
`$.checkArgument(message)`: the empty string is falsy, every array
(even an empty one) is truthy. -/
def msgTruthy : Msg → Bool
  | .one s => !(s == "")
  | .many _ => true

/-- `Array.isArray(message) ? message.join('') : message`. -/
def flattenMessage : Msg → String
  | .one s => s
  | .many l => joinAll l

/-- A signature or public-key argument: raw bytes (a `Buffer`) or a hex
string, mirroring the `Buffer.isBuffer` test in the source. -/
inductive BufOrStr
  | buf : List Nat → BufOrStr
  | str : String → BufOrStr

/-- The byte buffer obtained from a signature/public-key argument:
a `Buffer` is used as is, a string goes through `Buffer.from(s, 'hex')`. -/
def bufOf : BufOrStr → List Nat
  | .buf b => b
  | .str s => hexDecode s

/-- The external cryptographic primitives the verifier consumes:
`crypto.Hash.sha256` (from bitcore-lib, not under src/), and the native
`secp256k1` module's `signatureImport` (DER import, throws on malformed
input, hence `Option`) and `ecdsaVerify` (argument order: signature,
message hash, public key; throws on malformed keys/signatures, hence
`Option`).  `sha256_spec_len` records that SHA-256 digests are 32 bytes. -/
structure CryptoPrims where
  sha256 : List Nat → List Nat
  sigImportDER : List Nat → Option (List Nat)
  ecdsaVerify : List Nat → List Nat → List Nat → Option Bool
  sha256_spec_len : ∀ bs, (sha256 bs).length = 32

/-- `crypto.Hash.sha256sha256`: SHA-256 applied twice. -/
def sha256sha256 (P : CryptoPrims) (bs : List Nat) : List Nat :=
  P.sha256 (P.sha256 bs)

/-- `Utils.hashMessage(text, noReverse)`.  `$.checkArgument(text)` throws a
precondition error when `text` is falsy (the empty string); otherwise the
double SHA-256 of the UTF-8 bytes is returned, byte-reversed unless
`noReverse` is set. -/
def hashMessage (P : CryptoPrims) (text : String) (noReverse : Bool) :
    Except Unit (List Nat) :=
  if text == "" then .error ()
  else
    let ret := sha256sha256 P (strBytes text)
    .ok (if noReverse then ret else ret.reverse)

/-- `Utils.hashMessage(text)` with the `noReverse` parameter omitted: the
omitted argument is `undefined`, which is falsy, so the digest is reversed. -/
def hashMessageDefault (P : CryptoPrims) (text : String) : Except Unit (List Nat) :=
  hashMessage P text false

/-- `Utils._tryImportPublicKey`: coerce the argument to a buffer
(`Buffer.from(publicKey, 'hex')` when it is not already a buffer).  For the
buffer-or-string domain this coercion never throws, so the catch branch that
returns `false` is unreachable and the result is always `some`. -/
def tryImportPublicKey (publicKey : BufOrStr) : Option (List Nat) :=
  some (bufOf publicKey)

/-- `Utils._tryImportSignature`: coerce to a buffer, then
`secp256k1.signatureImport`; any exception is caught and surfaced as a
falsy result (`none`). -/
def tryImportSignature (P : CryptoPrims) (signature : BufOrStr) :
    Option (List Nat) :=
  P.sigImportDER (bufOf signature)

/-- `Utils._tryVerifyMessage`: `secp256k1.ecdsaVerify(sig, hash, publicKey)`
with any exception caught and converted to `false`. -/
def tryVerifyMessage (P : CryptoPrims) (hash sig publicKeyBuffer : List Nat) :
    Bool :=
  (P.ecdsaVerify sig hash publicKeyBuffer).getD false

/-- `Utils.verifyMessage(message, signature, publicKey)`, translated
clause by clause: the `$.checkArgument(message)` precondition (throws on a
falsy message), flattening of an array message, hashing with
`noReverse = true`, then the two guarded imports and the guarded
verification. -/
def verifyMessage (P : CryptoPrims) (message : Msg)
    (signature publicKey : BufOrStr) : Except Unit Bool :=
  if !msgTruthy message then .error ()
  else
    let flattenedMessage := flattenMessage message
    match hashMessage P flattenedMessage true with
    | .error e => .error e
    | .ok hash =>
      match tryImportSignature P signature with
      | none => .ok false
      | some sig =>
        match tryImportPublicKey publicKey with
        | none => .ok false
        | some publicKeyBuffer => .ok (tryVerifyMessage P hash sig publicKeyBuffer)

/-- A concrete instantiation of the cryptographic primitives, used to
evaluate the model on closed inputs: a constant 32-byte digest, a
signature importer that rejects exactly the empty buffer, and a verifier that always
answers `false`. -/
def samplePrims : CryptoPrims where
  sha256 := fun _ => List.replicate 32 0
  sigImportDER := fun b => if b.isEmpty then none else some b
  ecdsaVerify := fun _ _ _ => some false
  sha256_spec_len := by intro bs; simp

example : hexDecode "0102" = [1, 2] := by decide
example : hexDecode "zz" = [] := by decide
example : verifyMessage samplePrims (Msg.one "") (BufOrStr.str "aa") (BufOrStr.str "bb")
    = Except.error () := rfl

/-- The four blockchain forks whose address codecs are installed in the
`Bitcore_` dispatch table, in its declaration order. -/
inductive Fork
  | btc
  | bch
  | doge
  | ltc
deriving DecidableEq

/-- The order in which `getAddressCoin` tries the forks (the nesting order
of its try/catch chain). -/
def forkOrder : List Fork := [Fork.btc, Fork.bch, Fork.doge, Fork.ltc]

/-- The per-fork address codecs consumed from the bitcore-lib family of
libraries (part of the monorepo but not under src/, so kept abstract):
`decode f s` is `new Bitcore_[f].Address(s)` followed by `.toObject()`,
projected to the underlying hash/script bytes, with a thrown exception
modelled as `none`; `fromObject f o` is `Bitcore_[f].Address.fromObject`,
again with exceptions as `none`; `encodeDefault` is `.toString()` and
`encodeLegacy` is `.toLegacyAddress()`. -/
structure Codecs where
  decode : Fork → String → Option (List Nat)
  fromObject : Fork → List Nat → Option (List Nat)
  encodeDefault : Fork → List Nat → String
  encodeLegacy : Fork → List Nat → String

/-- `Utils.getAddressCoin(address)`: try each fork's `Address` constructor
in the fixed nesting order btc, bch, doge, ltc; the first that does not
throw determines the result; if all throw, the function returns `undefined`
(`none`). -/
def getAddressCoin (c : Codecs) (address : String) : Option Fork :=
  if (c.decode Fork.btc address).isSome then some Fork.btc
  else if (c.decode Fork.bch address).isSome then some Fork.bch
  else if (c.decode Fork.doge address).isSome then some Fork.doge
  else if (c.decode Fork.ltc address).isSome then some Fork.ltc
  else none

/-- The kinds of exception `translateAddress` can let escape, plus the typed
error the specification speaks of (which the code never produces):
`typeErrorUndefined` is the TypeError raised by reading `.Address` off
`Bitcore_[undefined]` when classification returned `undefined`;
`addressError` is an exception thrown by a codec constructor or
`fromObject`; `invalidSourceAddress` is the typed error named by the spec. -/
inductive JsErr
  | typeErrorUndefined
  | addressError
  | invalidSourceAddress
deriving DecidableEq

/-- `Utils.translateAddress(address, coin)`: classify the address, decode it
under the classified fork, re-encode under `coin` via `fromObject`, and
render with `toLegacyAddress()` when the target is bch, `toString()`
otherwise.  There is no guard on the classification result: when it is
`undefined` the member access `Bitcore_[origCoin].Address` throws an
uncaught TypeError. -/
def translateAddress (c : Codecs) (address : String) (coin : Fork) :
    Except JsErr String :=
  match getAddressCoin c address with
  | none => .error JsErr.typeErrorUndefined
  | some origCoin =>
    match c.decode origCoin address with
    | none => .error JsErr.addressError
    | some origObj =>
      match c.fromObject coin origObj with
      | none => .error JsErr.addressError
      | some result =>
        .ok (if coin = Fork.bch then c.encodeLegacy coin result
             else c.encodeDefault coin result)

/-- Modelled from the spec: the laws the per-fork address grammars (the
bitcore-lib codecs, which live in the monorepo outside src/) are specified
to satisfy — an address string decodes to the same underlying hash/script
bytes under any fork that accepts it; `fromObject` preserves the underlying
identity and always accepts an object decoded under its own fork; and an
encoded address decodes back, under the encoding fork, to the identity it
was encoded from (for both the default and the legacy rendering). -/
structure LawfulCodecs (c : Codecs) : Prop where
  coherent : ∀ f g s o o', c.decode f s = some o → c.decode g s = some o' → o = o'
  fromObject_id : ∀ f o o', c.fromObject f o = some o' → o' = o
  own_fromObject : ∀ f s o, c.decode f s = some o → c.fromObject f o = some o
  roundtrip_default : ∀ f o o', c.fromObject f o = some o' →
    c.decode f (c.encodeDefault f o') = some o'
  roundtrip_legacy : ∀ o o', c.fromObject Fork.bch o = some o' →
    c.decode Fork.bch (c.encodeLegacy Fork.bch o') = some o'

/-- A concrete codec family used to evaluate the model on closed inputs:
every fork accepts exactly the address string consisting of the single
character x, decoding it to the identity bytes `[7]`. -/
def toyCodecs : Codecs where
  decode := fun _ s => if s = "x" then some [7] else none
  fromObject := fun _ o => if o = [7] then some [7] else none
  encodeDefault := fun _ _ => "x"
  encodeLegacy := fun _ _ => "x"

example : getAddressCoin toyCodecs "x" = some Fork.btc := by decide
example : getAddressCoin toyCodecs "" = none := by decide
example : translateAddress toyCodecs "x" Fork.doge = Except.ok "x" := rfl
example : translateAddress toyCodecs "y" Fork.btc
    = Except.error JsErr.typeErrorUndefined := rfl

/-- `c.toLowerCase()` on a single character, for the ASCII range (the only
characters network names contain). -/
def charToLower (c : Char) : Char :=
  if 'A' ≤ c ∧ c ≤ 'Z' then Char.ofNat (c.toNat + 32) else c

/-- `network.toLowerCase()`, restricted to ASCII case mapping. -/
def strToLower (s : String) : String := ⟨s.data.map charToLower⟩

/-- The `Constants.NETWORK_ALIASES` shape: a chain name may or may not have
an alias table, and a table maps network names to network names (JavaScript
object lookup, `undefined` as `none`). -/
def AliasTable : Type := String → Option (String → Option String)

/-- `Utils.getNetworkName(chain, network)`: if the chain has an alias table
and the table has a truthy entry for `network` (an empty-string value is
falsy and ignored), return that entry, else return `network` unchanged.
Note that the function does not lowercase its argument. -/
def getNetworkName (al : AliasTable) (chain network : String) : String :=
  match al chain with
  | some tbl =>
    match tbl network with
    | some v => if v = "" then network else v
    | none => network
  | none => network

/-- The three network classes distinguished by `Utils.getNetworkType`. -/
inductive NetworkType
  | mainnet
  | regtest
  | testnet
deriving DecidableEq

/-- `Utils.getNetworkType(network)` on a string: mainnet for the names
mainnet and livenet, regtest for regtest, testnet for everything else. -/
def getNetworkType (network : String) : NetworkType :=
  if network = "mainnet" ∨ network = "livenet" then NetworkType.mainnet
  else if network = "regtest" then NetworkType.regtest
  else NetworkType.testnet

/-- `Utils.getNetworkType` as invoked from `compareNetworks`, where the
argument may be `null`: `null` is in neither name list, so it falls through
to testnet. -/
def getNetworkTypeN : Option String → NetworkType
  | some n => getNetworkType n
  | none => NetworkType.testnet

/-- The resolution step of `compareNetworks`:
`network ? Utils.getNetworkName(chain, network.toLowerCase()) : null`. -/
def resolveOpt (al : AliasTable) (chain n : String) : Option String :=
  if n = "" then none else some (getNetworkName al chain (strToLower n))

/-- `['testnet', 'regtest'].includes(t)`. -/
def isTestnetOrRegtest (t : NetworkType) : Bool :=
  t == NetworkType.testnet || t == NetworkType.regtest

/-- `Utils.compareNetworks(network1, network2, chain)`: resolve both names
(lowercased, with falsy names becoming `null`), compare for equality, and
otherwise allow a match when `Config.allowRegtest` is set and both resolved
names classify as testnet or regtest.  `Config.allowRegtest` is a
configuration value, passed here as the `allowRegtest` parameter. -/
def compareNetworks (al : AliasTable) (allowRegtest : Bool)
    (network1 network2 chain : String) : Bool :=
  let n1 := resolveOpt al chain network1
  let n2 := resolveOpt al chain network2
  if n1 = n2 then true
  else if allowRegtest && isTestnetOrRegtest (getNetworkTypeN n1)
      && isTestnetOrRegtest (getNetworkTypeN n2) then true
  else false

/-- Modelled from the spec: the ToSpecific direction of
`resolveNetworkAlias` exactly as the specification words it — look up the
lowercased network string as a generic class key in the fork's alias table;
if present return the specific name, otherwise return the input unchanged. -/
def resolveNetworkAliasSpec (al : AliasTable) (chain network : String) : String :=
  match al chain with
  | some tbl =>
    match tbl (strToLower network) with
    | some v => v
    | none => network
  | none => network

/-- The btc row of the alias table. -/
def btcNetworkTbl : String → Option String :=
  fun n => if n = "testnet" then some "testnet3" else none

/-- The eth row of the alias table. -/
def ethNetworkTbl : String → Option String :=
  fun n => if n = "testnet" then some "sepolia" else none

/-- Modelled from the spec: a concrete `Constants.NETWORK_ALIASES` table
(the real one lives in the monorepo outside src/).  Per the spec's data
model it maps, per fork, generic class keys to that fork's specific
network-name string; the spec's examples name testnet3 and sepolia as
specific testnet names. -/
def specNetworkAliases : AliasTable := fun chain =>
  if chain = "btc" then some btcNetworkTbl
  else if chain = "eth" then some ethNetworkTbl
  else none

example : getNetworkName specNetworkAliases "btc" "testnet" = "testnet3" := by decide
example : getNetworkName specNetworkAliases "btc" "TESTNET" = "TESTNET" := by decide
example : resolveNetworkAliasSpec specNetworkAliases "btc" "TESTNET" = "testnet3" := by decide
example : compareNetworks specNetworkAliases true "testnet" "regtest" "btc" = true := by decide
example : compareNetworks specNetworkAliases false "testnet" "regtest" "btc" = false := by decide

lemma msgTruthy_of_flatten_ne {msg : Msg} (h : flattenMessage msg ≠ "") :
    msgTruthy msg = true := by
  cases msg with
  | one s =>
    simp only [flattenMessage] at h
    simp [msgTruthy, h]
  | many l => rfl

lemma hashMessage_ok (P : CryptoPrims) (t : String) (nr : Bool) (h : t ≠ "") :
    hashMessage P t nr
      = Except.ok (if nr then sha256sha256 P (strBytes t)
          else (sha256sha256 P (strBytes t)).reverse) := by
  simp [hashMessage, h]

/-- Normal form of `verifyMessage` once the message precondition holds. -/
lemma verifyMessage_eq_of_flatten_ne (P : CryptoPrims) (msg : Msg)
    (sig pk : BufOrStr) (h : flattenMessage msg ≠ "") :
    verifyMessage P msg sig pk
      = match tryImportSignature P sig with
        | none => Except.ok false
        | some s => Except.ok (tryVerifyMessage P
            (sha256sha256 P (strBytes (flattenMessage msg))) s (bufOf pk)) := by
  unfold verifyMessage
  rw [msgTruthy_of_flatten_ne h]
  simp only [Bool.not_true, Bool.false_eq_true, if_false]
  rw [hashMessage_ok P _ true h]
  simp only [if_true]
  cases tryImportSignature P sig with
  | none => rfl
  | some s => rfl

lemma verifyMessage_exists_ok (P : CryptoPrims) (msg : Msg) (sig pk : BufOrStr)
    (h : flattenMessage msg ≠ "") :
    ∃ b, verifyMessage P msg sig pk = Except.ok b := by
  rw [verifyMessage_eq_of_flatten_ne P msg sig pk h]
  cases tryImportSignature P sig with
  | none => exact ⟨false, rfl⟩
  | some s => exact ⟨_, rfl⟩

/-- C1, amended claim: for every message whose flattened text is non-empty
(the implicit precondition of claim C10) and all signature and public-key
inputs, `verifyMessage` returns a boolean and never throws; when the
signature cannot be imported from DER form it returns `false`; and if the
public-key coercion could fail it would likewise return `false` (on the
buffer-or-hex-string domain that coercion is in fact total, so invalid keys
are instead caught inside the guarded verification, which also yields
`false`). -/
theorem verifyMessage_total_on_nonempty_message (P : CryptoPrims) (msg : Msg)
    (sig pk : BufOrStr) (hmsg : flattenMessage msg ≠ "") :
    (∃ b, verifyMessage P msg sig pk = Except.ok b)
    ∧ (tryImportSignature P sig = none → verifyMessage P msg sig pk = Except.ok false)
    ∧ (tryImportPublicKey pk = none → verifyMessage P msg sig pk = Except.ok false) := by
  refine ⟨verifyMessage_exists_ok P msg sig pk hmsg, ?_, ?_⟩
  · intro hs
    rw [verifyMessage_eq_of_flatten_ne P msg sig pk hmsg, hs]
  · intro hpk
    exact absurd hpk (by simp [tryImportPublicKey])

/-- C1, counterexample to the claim as stated: for the empty-string message
the `$.checkArgument(message)` precondition throws before any signature or
key handling, so `verifyMessage` does not return a boolean for every
message. -/
theorem verifyMessage_empty_message_throws :
    verifyMessage samplePrims (Msg.one "") (BufOrStr.str "aa") (BufOrStr.str "bb")
      = Except.error () := rfl

/-- C1, witness: the amended theorem evaluated at a concrete non-empty
message and a signature whose hex decoding yields no DER-importable bytes. -/
theorem verifyMessage_total_witness :
    verifyMessage samplePrims (Msg.one "abc") (BufOrStr.str "zz") (BufOrStr.str "00")
      = Except.ok false :=
  (verifyMessage_total_on_nonempty_message samplePrims (Msg.one "abc")
    (BufOrStr.str "zz") (BufOrStr.str "00") (by decide)).2.1 rfl

/-- C2: on the successful-import path, `verifyMessage` verifies against the
non-reversed double SHA-256 of the flattened message bytes (it calls
`hashMessage` with `noReverse = true`), even though `hashMessage` invoked
with its default (omitted) `noReverse` argument returns the byte-reversed
digest. -/
theorem verifyMessage_uses_nonreversed_digest (P : CryptoPrims) (msg : Msg)
    (sig pk : BufOrStr) (s : List Nat) (hmsg : flattenMessage msg ≠ "")
    (hsig : tryImportSignature P sig = some s) :
    verifyMessage P msg sig pk
      = Except.ok ((P.ecdsaVerify s (sha256sha256 P (strBytes (flattenMessage msg)))
          (bufOf pk)).getD false)
    ∧ hashMessage P (flattenMessage msg) true
      = Except.ok (sha256sha256 P (strBytes (flattenMessage msg)))
    ∧ hashMessageDefault P (flattenMessage msg)
      = Except.ok ((sha256sha256 P (strBytes (flattenMessage msg))).reverse) := by
  refine ⟨?_, ?_, ?_⟩
  · rw [verifyMessage_eq_of_flatten_ne P msg sig pk hmsg, hsig]
    rfl
  · rw [hashMessage_ok P _ true hmsg]
    simp
  · rw [hashMessageDefault, hashMessage_ok P _ false hmsg]
    simp

/-- C2, witness: the theorem evaluated on concrete inputs whose signature
does import. -/
theorem verifyMessage_nonreversed_digest_witness :
    verifyMessage samplePrims (Msg.one "ab") (BufOrStr.str "0102") (BufOrStr.str "00")
      = Except.ok ((samplePrims.ecdsaVerify [1, 2]
          (sha256sha256 samplePrims (strBytes "ab"))
          (bufOf (BufOrStr.str "00"))).getD false) :=
  (verifyMessage_uses_nonreversed_digest samplePrims (Msg.one "ab")
    (BufOrStr.str "0102") (BufOrStr.str "00") [1, 2] (by decide) rfl).1

/-- C7: for every non-empty text, the digest produced by `hashMessage` with
its default (reversing) behaviour is the exact byte reversal of the digest
produced with `noReverse` set, and the digest has 32 bytes. -/
theorem hashMessage_reverse_of_noreverse (P : CryptoPrims) (t : String)
    (ht : t ≠ "") :
    ∃ d, hashMessage P t true = Except.ok d
      ∧ hashMessageDefault P t = Except.ok d.reverse
      ∧ d.length = 32 := by
  refine ⟨sha256sha256 P (strBytes t), ?_, ?_, P.sha256_spec_len _⟩
  · rw [hashMessage_ok P t true ht]
    simp
  · rw [hashMessageDefault, hashMessage_ok P t false ht]
    simp

/-- C7, witness: the theorem evaluated at the text abc. -/
theorem hashMessage_reverse_witness :
    ∃ d, hashMessage samplePrims "abc" true = Except.ok d
      ∧ hashMessageDefault samplePrims "abc" = Except.ok d.reverse
      ∧ d.length = 32 :=
  hashMessage_reverse_of_noreverse samplePrims "abc" (by decide)

lemma str_data_append (a b : String) : (a ++ b).data = a.data ++ b.data := by
  cases a
  cases b
  rfl

lemma strBytes_acc (l : List Char) (acc : List Nat) :
    l.foldr (fun c a => utf8EncodeChar c ++ a) acc
      = l.foldr (fun c a => utf8EncodeChar c ++ a) [] ++ acc := by
  induction l with
  | nil => rfl
  | cons c rest ih => simp [ih]

lemma strBytes_append (a b : String) :
    strBytes (a ++ b) = strBytes a ++ strBytes b := by
  unfold strBytes
  rw [str_data_append, List.foldr_append, strBytes_acc]

lemma strBytes_joinAll (l : List String) :
    strBytes (joinAll l) = (l.map strBytes).foldr (· ++ ·) [] := by
  induction l with
  | nil => rfl
  | cons s rest ih => simp [joinAll, strBytes_append, ih]

/-- C9: a sequence message is flattened by concatenation with no separator
before hashing, so `verifyMessage` treats the sequence exactly as the single
concatenated string, and the hashed byte stream of the concatenation is the
concatenation of the elements' byte streams. -/
theorem verifyMessage_concat_sequence (P : CryptoPrims) (l : List String)
    (sig pk : BufOrStr) :
    verifyMessage P (Msg.many l) sig pk
      = verifyMessage P (Msg.one (joinAll l)) sig pk
    ∧ strBytes (joinAll l) = (l.map strBytes).foldr (· ++ ·) [] := by
  refine ⟨?_, strBytes_joinAll l⟩
  by_cases h : joinAll l = ""
  · simp [verifyMessage, msgTruthy, flattenMessage, h, hashMessage]
  · have h1 : flattenMessage (Msg.many l) ≠ "" := h
    have h2 : flattenMessage (Msg.one (joinAll l)) ≠ "" := h
    rw [verifyMessage_eq_of_flatten_ne P _ sig pk h1,
      verifyMessage_eq_of_flatten_ne P _ sig pk h2]
    rfl

/-- C10: the implicit precondition at the interface — `hashMessage` throws
its precondition error on the empty text for either reversal mode,
`verifyMessage` throws it on the empty-string message, and `verifyMessage`
is total (returns a boolean) for every message whose flattened text is
non-empty. -/
theorem checkArgument_rejects_empty_message (P : CryptoPrims)
    (sig pk : BufOrStr) (nr : Bool) (msg : Msg) :
    hashMessage P "" nr = Except.error ()
    ∧ verifyMessage P (Msg.one "") sig pk = Except.error ()
    ∧ (flattenMessage msg ≠ "" → ∃ b, verifyMessage P msg sig pk = Except.ok b) := by
  refine ⟨rfl, rfl, fun h => verifyMessage_exists_ok P msg sig pk h⟩

/-- C10, witness: the totality clause evaluated at a concrete non-empty
message. -/
theorem checkArgument_total_witness :
    ∃ b, verifyMessage samplePrims (Msg.one "xyz") (BufOrStr.buf [1]) (BufOrStr.str "")
      = Except.ok b :=
  (checkArgument_rejects_empty_message samplePrims (BufOrStr.buf [1])
    (BufOrStr.str "") true (Msg.one "xyz")).2.2 (by decide)

lemma getAddressCoin_eq_find (c : Codecs) (a : String) :
    getAddressCoin c a = forkOrder.find? (fun f => (c.decode f a).isSome) := by
  unfold getAddressCoin forkOrder
  cases h1 : (c.decode Fork.btc a).isSome <;>
    cases h2 : (c.decode Fork.bch a).isSome <;>
      cases h3 : (c.decode Fork.doge a).isSome <;>
        cases h4 : (c.decode Fork.ltc a).isSome <;>
          simp [List.find?, h1, h2, h3, h4]

lemma classify_of_accept (c : Codecs) (a : String) (F : Fork)
    (hF : (c.decode F a).isSome) :
    ∃ G o, getAddressCoin c a = some G ∧ c.decode G a = some o := by
  rw [getAddressCoin_eq_find]
  have hmem : F ∈ forkOrder := by cases F <;> simp [forkOrder]
  have hfind : (forkOrder.find? (fun f => (c.decode f a).isSome)).isSome :=
    List.find?_isSome.mpr ⟨F, hmem, hF⟩
  obtain ⟨G, hG⟩ := Option.isSome_iff_exists.mp hfind
  have hp := List.find?_some hG
  simp only at hp
  obtain ⟨o, ho⟩ := Option.isSome_iff_exists.mp hp
  exact ⟨G, o, hG, ho⟩

/-- C3: `getAddressCoin` equals the first-match search over the fixed fork
priority order btc, bch, doge, ltc — so an address accepted by several
grammars resolves to the earliest fork in that order — and when every
fork's decoder rejects the string the result is the `undefined` sentinel
(`none`), with every decoder exception caught along the way. -/
theorem getAddressCoin_priority_order (c : Codecs) (a : String) :
    getAddressCoin c a = forkOrder.find? (fun f => (c.decode f a).isSome)
    ∧ ((∀ f, c.decode f a = none) → getAddressCoin c a = none) := by
  refine ⟨getAddressCoin_eq_find c a, fun h => ?_⟩
  simp [getAddressCoin, h]

/-- C3, witness: the no-fork-accepts clause evaluated at the empty string
under the concrete codecs. -/
theorem getAddressCoin_priority_witness :
    getAddressCoin toyCodecs "" = none :=
  (getAddressCoin_priority_order toyCodecs "").2 (fun f => by cases f <;> rfl)

/-- C4, amended claim: when classification fails, `translateAddress` throws
the untyped TypeError arising from `Bitcore_[undefined].Address` rather
than a typed InvalidSourceAddress error; and when the address classifies
under some fork and the target codec accepts the decoded identity
(structural compatibility), translation never fails. -/
theorem translateAddress_failure_modes (c : Codecs) (a : String) (coin : Fork) :
    (getAddressCoin c a = none →
      translateAddress c a coin = Except.error JsErr.typeErrorUndefined)
    ∧ (∀ f o, getAddressCoin c a = some f → c.decode f a = some o →
        (c.fromObject coin o).isSome →
        ∃ s, translateAddress c a coin = Except.ok s) := by
  constructor
  · intro h
    simp [translateAddress, h]
  · intro f o hf ho hc
    obtain ⟨r, hr⟩ := Option.isSome_iff_exists.mp hc
    exact ⟨if coin = Fork.bch then c.encodeLegacy coin r else c.encodeDefault coin r,
      by simp [translateAddress, hf, ho, hr]⟩

/-- C4, counterexample to the claim as stated: on an unclassifiable address
the failure is the untyped undefined-lookup TypeError, not the typed
InvalidSourceAddress error the claim requires. -/
theorem translateAddress_unclassifiable_untyped_error :
    translateAddress toyCodecs "y" Fork.btc = Except.error JsErr.typeErrorUndefined
    ∧ translateAddress toyCodecs "y" Fork.btc
        ≠ Except.error JsErr.invalidSourceAddress := by
  refine ⟨rfl, fun h => ?_⟩
  rw [show translateAddress toyCodecs "y" Fork.btc
      = Except.error JsErr.typeErrorUndefined from rfl] at h
  simp at h

/-- C4, witness: the never-fails clause evaluated on a classifiable address
and a compatible target. -/
theorem translateAddress_success_witness :
    ∃ s, translateAddress toyCodecs "x" Fork.doge = Except.ok s :=
  (translateAddress_failure_modes toyCodecs "x" Fork.doge).2 Fork.btc [7]
    (by decide) (by decide) (by decide)

lemma toyCodecs_lawful : LawfulCodecs toyCodecs := by
  constructor
  · intro f g s o o' h1 h2
    have h1' : (if s = "x" then some [7] else none : Option (List Nat)) = some o := h1
    have h2' : (if s = "x" then some [7] else none : Option (List Nat)) = some o' := h2
    by_cases hs : s = "x"
    · rw [if_pos hs] at h1' h2'
      cases h1'
      cases h2'
      rfl
    · rw [if_neg hs] at h1'
      cases h1'
  · intro f o o' h
    have h' : (if o = [7] then some [7] else none : Option (List Nat)) = some o' := h
    by_cases ho : o = [7]
    · rw [if_pos ho] at h'
      cases h'
      exact ho.symm
    · rw [if_neg ho] at h'
      cases h'
  · intro f s o h
    have h' : (if s = "x" then some [7] else none : Option (List Nat)) = some o := h
    by_cases hs : s = "x"
    · rw [if_pos hs] at h'
      cases h'
      rfl
    · rw [if_neg hs] at h'
      cases h'
  · intro f o o' h
    have h' : (if o = [7] then some [7] else none : Option (List Nat)) = some o' := h
    by_cases ho : o = [7]
    · rw [if_pos ho] at h'
      cases h'
      rfl
    · rw [if_neg ho] at h'
      cases h'
  · intro o o' h
    have h' : (if o = [7] then some [7] else none : Option (List Nat)) = some o' := h
    by_cases ho : o = [7]
    · rw [if_pos ho] at h'
      cases h'
      rfl
    · rw [if_neg ho] at h'
      cases h'

/-- C5: for any lawful address codecs, an address validly encoded under
fork F, and a target fork T whose codec accepts the decoded identity,
translating to T and back to F succeeds and yields an address that decodes
under F to the same underlying hash/script bytes as the original. -/
theorem translateAddress_roundtrip_identity (c : Codecs) (hL : LawfulCodecs c)
    (a : String) (F T : Fork) (o0 : List Nat)
    (ha : c.decode F a = some o0) (hT : (c.fromObject T o0).isSome) :
    ∃ s1 s2, translateAddress c a T = Except.ok s1
      ∧ translateAddress c s1 F = Except.ok s2
      ∧ c.decode F s2 = some o0 := by
  obtain ⟨G, oG, hG, hoG⟩ := classify_of_accept c a F (by simp [ha])
  have hGid : oG = o0 := hL.coherent G F a oG o0 hoG ha
  subst hGid
  obtain ⟨o1, ho1⟩ := Option.isSome_iff_exists.mp hT
  have h1id : o1 = oG := hL.fromObject_id T oG o1 ho1
  subst h1id
  set s1 := if T = Fork.bch then c.encodeLegacy T o1 else c.encodeDefault T o1 with hs1
  have ht1 : translateAddress c a T = Except.ok s1 := by
    simp [translateAddress, hG, hoG, ho1, hs1]
  have hdec1 : c.decode T s1 = some o1 := by
    by_cases hTb : T = Fork.bch
    · subst hTb
      simpa [hs1] using hL.roundtrip_legacy o1 o1 ho1
    · simpa [hs1, hTb] using hL.roundtrip_default T o1 o1 ho1
  obtain ⟨G2, oG2, hG2, hoG2⟩ := classify_of_accept c s1 T (by simp [hdec1])
  have hG2id : oG2 = o1 := hL.coherent G2 T s1 oG2 o1 hoG2 hdec1
  subst hG2id
  have hFo : c.fromObject F oG2 = some oG2 := hL.own_fromObject F a oG2 ha
  set s2 := if F = Fork.bch then c.encodeLegacy F oG2 else c.encodeDefault F oG2 with hs2
  have ht2 : translateAddress c s1 F = Except.ok s2 := by
    simp [translateAddress, hG2, hoG2, hFo, hs2]
  have hdec2 : c.decode F s2 = some oG2 := by
    by_cases hFb : F = Fork.bch
    · subst hFb
      simpa [hs2] using hL.roundtrip_legacy oG2 oG2 hFo
    · simpa [hs2, hFb] using hL.roundtrip_default F oG2 oG2 hFo
  exact ⟨s1, s2, ht1, ht2, hdec2⟩

/-- C5, witness: the round trip evaluated on the concrete lawful codecs,
with bch as the intermediate target (exercising the legacy rendering). -/
theorem translateAddress_roundtrip_witness :
    ∃ s1 s2, translateAddress toyCodecs "x" Fork.bch = Except.ok s1
      ∧ translateAddress toyCodecs s1 Fork.ltc = Except.ok s2
      ∧ toyCodecs.decode Fork.ltc s2 = some [7] :=
  translateAddress_roundtrip_identity toyCodecs toyCodecs_lawful "x"
    Fork.ltc Fork.bch [7] (by decide) (by decide)

lemma compareNetworks_iff (al : AliasTable) (allow : Bool) (n1 n2 chain : String) :
    compareNetworks al allow n1 n2 chain = true ↔
      (resolveOpt al chain n1 = resolveOpt al chain n2
        ∨ (allow = true
            ∧ isTestnetOrRegtest (getNetworkTypeN (resolveOpt al chain n1)) = true
            ∧ isTestnetOrRegtest (getNetworkTypeN (resolveOpt al chain n2)) = true)) := by
  unfold compareNetworks
  by_cases h : resolveOpt al chain n1 = resolveOpt al chain n2
  · simp [h]
  · cases hb0 : allow <;>
      cases hb1 : isTestnetOrRegtest (getNetworkTypeN (resolveOpt al chain n1)) <;>
        cases hb2 : isTestnetOrRegtest (getNetworkTypeN (resolveOpt al chain n2)) <;>
          simp [h, hb1, hb2]

/-- C6: `compareNetworks` answers true exactly when the two names, after the
falsy-to-null step, lowercasing and ToSpecific alias resolution, are equal,
or when the regtest crossover is enabled and both resolved names classify as
testnet or regtest; in particular the testnet/regtest pair is compatible
with the crossover enabled (given that the alias table sends the two generic
keys to testnet- or regtest-class names), and with the crossover disabled it
is compatible only when both names resolve to the identical specific name. -/
theorem compareNetworks_characterization (al : AliasTable) (allow : Bool)
    (n1 n2 chain : String) :
    (compareNetworks al allow n1 n2 chain = true ↔
      (resolveOpt al chain n1 = resolveOpt al chain n2
        ∨ (allow = true
            ∧ isTestnetOrRegtest (getNetworkTypeN (resolveOpt al chain n1)) = true
            ∧ isTestnetOrRegtest (getNetworkTypeN (resolveOpt al chain n2)) = true)))
    ∧ (isTestnetOrRegtest (getNetworkTypeN (resolveOpt al chain "testnet")) = true →
        isTestnetOrRegtest (getNetworkTypeN (resolveOpt al chain "regtest")) = true →
        compareNetworks al true "testnet" "regtest" chain = true)
    ∧ (compareNetworks al false "testnet" "regtest" chain = true →
        resolveOpt al chain "testnet" = resolveOpt al chain "regtest") := by
  refine ⟨compareNetworks_iff al allow n1 n2 chain, ?_, ?_⟩
  · intro h1 h2
    exact (compareNetworks_iff al true "testnet" "regtest" chain).mpr
      (Or.inr ⟨rfl, h1, h2⟩)
  · intro h
    rcases (compareNetworks_iff al false "testnet" "regtest" chain).mp h with
      he | ⟨hfalse, _, _⟩
    · exact he
    · exact (Bool.false_ne_true hfalse).elim

/-- C6, witness: the crossover clause evaluated on the concrete alias
table. -/
theorem compareNetworks_characterization_witness :
    compareNetworks specNetworkAliases true "testnet" "regtest" "btc" = true :=
  (compareNetworks_characterization specNetworkAliases true
    "testnet" "regtest" "btc").2.1 (by decide) (by decide)

/-- C8, amended claim: `getNetworkName` looks up the network string exactly
as given (it does not lowercase; its callers lowercase beforehand): when the
chain has an alias table mapping the string to a non-empty specific name it
returns that name, and otherwise — no table, no entry, or an empty entry —
it returns the input unchanged; on input that is already lowercase it
coincides with the spec's worded ToSpecific resolution. -/
theorem getNetworkName_passthrough_behavior (al : AliasTable) (chain n : String)
    (tbl : String → Option String) (v : String) :
    (al chain = none → getNetworkName al chain n = n)
    ∧ (al chain = some tbl → tbl n = none → getNetworkName al chain n = n)
    ∧ (al chain = some tbl → tbl n = some v → v ≠ "" → getNetworkName al chain n = v)
    ∧ (al chain = some tbl → strToLower n = n → (∀ w, tbl n = some w → w ≠ "") →
        getNetworkName al chain n = resolveNetworkAliasSpec al chain n) := by
  refine ⟨?_, ?_, ?_, ?_⟩
  · intro h
    simp [getNetworkName, h]
  · intro h h2
    simp [getNetworkName, h, h2]
  · intro h h2 h3
    simp [getNetworkName, h, h2, h3]
  · intro h hl hw
    simp only [getNetworkName, resolveNetworkAliasSpec, h, hl]
    cases htbl : tbl n with
    | none => rfl
    | some w => simp [hw w htbl]

/-- C8, counterexample to the claim as stated: `getNetworkName` does not
lowercase its argument, so on an uppercase spelling of a configured generic
key it passes the input through while the spec's worded resolution returns
the configured specific name. -/
theorem getNetworkName_no_lowercasing :
    getNetworkName specNetworkAliases "btc" "TESTNET" = "TESTNET"
    ∧ resolveNetworkAliasSpec specNetworkAliases "btc" "TESTNET" = "testnet3"
    ∧ ("TESTNET" : String) ≠ "testnet3" :=
  ⟨by decide, by decide, by decide⟩

/-- C8, witness: the configured-entry clause evaluated at the (lowercase)
generic key testnet for the btc chain. -/
theorem getNetworkName_testnet_witness :
    getNetworkName specNetworkAliases "btc" "testnet" = "testnet3" :=
  (getNetworkName_passthrough_behavior specNetworkAliases "btc" "testnet"
    btcNetworkTbl "testnet3").2.2.1 rfl rfl (by decide)
